import Mathlib

/-!
Verification of the `TryFilterMap` stream combinator from
`futures-util/src/try_stream/try_filter_map.rs`.

The combinator wraps an upstream fallible stream `St`, a callback
`f : Item -> Fut` and an optional in-flight future slot `pending`.
Its `poll_next` loop is translated shallowly:

* the upstream stream is modelled as a predetermined trace of poll
  outcomes (`StreamEv`): each call to `try_poll_next` consumes the head
  event and returns `Pending`, `Ready (some item)` or `Ready none`;
* a future (`Fut`) is modelled as a countdown: `delay` polls return
  `Pending`, after which the future resolves to `result`;
* `poll_next` itself is translated line by line from the Rust source as
  `pollNextAux`; besides the poll result and the updated fields it
  returns a ghost `trace` recording which collaborator was polled
  (and with which pending-slot contents) and each callback invocation.
  The trace is instrumentation only: it never influences the result,
  stream or pending components.
-/

namespace TryFilterMapSpec

/-- `Poll` from `futures_core::task`: either ready with a value or pending. -/
inductive Poll (α : Type) : Type
  | ready (a : α)
  | pending

/-- One poll outcome of the upstream `TryStream`: the stream reports
not-ready (`pend`), yields an item `Ok x`/`Err e` (`item`), or reports
exhaustion (`done`). Events after a `done` model a non-fused upstream. -/
inductive StreamEv (α ε : Type) : Type
  | pend
  | item (r : Except ε α)
  | done

/-- Model of `St::try_poll_next`: consume the head event of the trace.
An empty trace behaves as a stream that keeps reporting exhaustion. -/
def tryPollNext {α ε : Type} :
    List (StreamEv α ε) → Poll (Option (Except ε α)) × List (StreamEv α ε)
  | [] => (.ready none, [])
  | .pend :: s => (.pending, s)
  | .item r :: s => (.ready (some r), s)
  | .done :: s => (.ready none, s)

/-- Model of a `TryFuture` with `Ok = Option β` and `Error = ε`:
it reports `Pending` for `delay` polls, then resolves to `result`. -/
structure Fut (β ε : Type) : Type where
  delay : Nat
  result : Except ε (Option β)

/-- Model of `Fut::try_poll`: count the delay down; at zero, resolve. -/
def tryPoll {β ε : Type} : Fut β ε → Poll (Except ε (Option β)) × Fut β ε
  | ⟨0, r⟩ => (.ready r, ⟨0, r⟩)
  | ⟨Nat.succ n, r⟩ => (.pending, ⟨n, r⟩)

/-- Ghost trace events: `streamPoll q` records that the upstream stream
was polled while the pending slot held `q`; `callF x` records an
invocation of the callback on item `x`; `taskPoll` records a poll of the
stored pending future. -/
inductive PollEv (α β ε : Type) : Type
  | streamPoll (slot : Option (Fut β ε))
  | callF (x : α)
  | taskPoll

/-- Result of one `poll_next` call: the value returned to the caller,
the updated `stream` and `pending` fields, and the ghost trace. -/
structure PollResult (α β ε : Type) : Type where
  res : Poll (Option (Except ε β))
  stream : List (StreamEv α ε)
  pending : Option (Fut β ε)
  trace : List (PollEv α β ε)

/-- Cost of a future: polls needed to resolve it, plus one. -/
def futCost {β ε : Type} (fut : Fut β ε) : Nat := 1 + fut.delay

/-- Cost of one upstream event: an `Ok` item additionally pays for the
future the callback will create from it. -/
def evCost {α β ε : Type} (f : α → Fut β ε) : StreamEv α ε → Nat
  | .item (.ok x) => 1 + futCost (f x)
  | _ => 1

/-- Total cost of the remaining upstream trace. -/
def streamCost {α β ε : Type} (f : α → Fut β ε) (s : List (StreamEv α ε)) : Nat :=
  (s.map (evCost f)).sum

/-- Termination measure for the `poll_next` loop. -/
def stateCost {α β ε : Type} (f : α → Fut β ε) (s : List (StreamEv α ε)) :
    Option (Fut β ε) → Nat
  | none => streamCost f s
  | some fut => streamCost f s + futCost fut

/-- Translation of the body of `TryFilterMap::poll_next` (the `loop`),
acting on the `stream` and `pending` fields with callback `f`.

Each loop iteration of the Rust source:
if `pending` is `None`, poll the upstream stream — `Pending`, `Err` and
`None` return immediately, an `Ok(x)` item stores `f x` in the slot and
falls through; then poll the stored future — `Pending` returns with the
(partially polled) future still in the slot, otherwise the slot is
cleared and `Ok(Some v)` / `Err e` return while `Ok(None)` loops. -/
def pollNextAux {α β ε : Type} (f : α → Fut β ε) :
    List (StreamEv α ε) → Option (Fut β ε) → PollResult α β ε
  | s, some fut =>
    match tryPoll fut with
    | (.pending, fut') => ⟨.pending, s, some fut', [.taskPoll]⟩
    | (.ready (.ok (some x)), _) => ⟨.ready (some (.ok x)), s, none, [.taskPoll]⟩
    | (.ready (.error e), _) => ⟨.ready (some (.error e)), s, none, [.taskPoll]⟩
    | (.ready (.ok none), _) =>
      let r := pollNextAux f s none
      ⟨r.res, r.stream, r.pending, .taskPoll :: r.trace⟩
  | s, none =>
    match h : tryPollNext s with
    | (.pending, s') => ⟨.pending, s', none, [.streamPoll none]⟩
    | (.ready none, s') => ⟨.ready none, s', none, [.streamPoll none]⟩
    | (.ready (some (.error e)), s') =>
      ⟨.ready (some (.error e)), s', none, [.streamPoll none]⟩
    | (.ready (some (.ok x)), s') =>
      let r := pollNextAux f s' (some (f x))
      ⟨r.res, r.stream, r.pending, .streamPoll none :: .callF x :: r.trace⟩
  termination_by s p => stateCost f s p
  decreasing_by
  · simp [stateCost, futCost]
  · cases s with
    | nil => simp [tryPollNext] at h
    | cons ev s0 =>
      cases ev with
      | pend => simp [tryPollNext] at h
      | done => simp [tryPollNext] at h
      | item r =>
        simp [tryPollNext] at h
        obtain ⟨h1, h2⟩ := h
        subst h2
        subst h1
        simp [stateCost, streamCost, evCost, futCost]
        omega

/-- Step lemma: a stored future that is not yet ready is re-polled and
stays in the slot; the call suspends. -/
theorem pollNextAux_fut_pending {α β ε : Type} (f : α → Fut β ε)
    (s : List (StreamEv α ε)) (d : Nat) (r : Except ε (Option β)) :
    pollNextAux f s (some ⟨d + 1, r⟩) = ⟨.pending, s, some ⟨d, r⟩, [.taskPoll]⟩ := by
  conv_lhs => rw [pollNextAux]
  simp [tryPoll, tryPollNext]

/-- Step lemma: a stored future resolving `Ok (some v)` yields `Ok v` and
clears the slot. -/
theorem pollNextAux_fut_keep {α β ε : Type} (f : α → Fut β ε)
    (s : List (StreamEv α ε)) (v : β) :
    pollNextAux f s (some ⟨0, .ok (some v)⟩) =
      ⟨.ready (some (.ok v)), s, none, [.taskPoll]⟩ := by
  conv_lhs => rw [pollNextAux]
  simp [tryPoll, tryPollNext]

/-- Step lemma: a stored future resolving `Err e` yields `Err e` and
clears the slot. -/
theorem pollNextAux_fut_err {α β ε : Type} (f : α → Fut β ε)
    (s : List (StreamEv α ε)) (e : ε) :
    pollNextAux f s (some ⟨0, .error e⟩) =
      ⟨.ready (some (.error e)), s, none, [.taskPoll]⟩ := by
  conv_lhs => rw [pollNextAux]
  simp [tryPoll, tryPollNext]

/-- Step lemma: a stored future resolving `Ok none` (a drop) clears the
slot and the loop continues exactly as a call that starts with an empty
slot; only an extra `taskPoll` is recorded. -/
theorem pollNextAux_fut_drop {α β ε : Type} (f : α → Fut β ε)
    (s : List (StreamEv α ε)) :
    pollNextAux f s (some ⟨0, .ok none⟩) =
      ⟨(pollNextAux f s none).res, (pollNextAux f s none).stream,
        (pollNextAux f s none).pending, .taskPoll :: (pollNextAux f s none).trace⟩ := by
  conv_lhs => rw [pollNextAux]
  simp [tryPoll, tryPollNext]

/-- Step lemma: with an empty slot and an exhausted upstream trace the
call reports end-of-sequence. -/
theorem pollNextAux_nil {α β ε : Type} (f : α → Fut β ε) :
    pollNextAux f [] none = ⟨.ready none, [], none, [.streamPoll none]⟩ := by
  conv_lhs => rw [pollNextAux]
  simp [tryPoll, tryPollNext]

/-- Step lemma: with an empty slot and upstream not ready, the call
suspends with the slot still empty. -/
theorem pollNextAux_stream_pend {α β ε : Type} (f : α → Fut β ε)
    (s : List (StreamEv α ε)) :
    pollNextAux f (.pend :: s) none = ⟨.pending, s, none, [.streamPoll none]⟩ := by
  conv_lhs => rw [pollNextAux]
  simp [tryPoll, tryPollNext]

/-- Step lemma: with an empty slot and upstream reporting exhaustion, the
call reports end-of-sequence with the slot still empty. -/
theorem pollNextAux_stream_done {α β ε : Type} (f : α → Fut β ε)
    (s : List (StreamEv α ε)) :
    pollNextAux f (.done :: s) none = ⟨.ready none, s, none, [.streamPoll none]⟩ := by
  conv_lhs => rw [pollNextAux]
  simp [tryPoll, tryPollNext]

/-- Step lemma: with an empty slot, an upstream `Err e` is forwarded
immediately with the slot still empty. -/
theorem pollNextAux_stream_err {α β ε : Type} (f : α → Fut β ε)
    (s : List (StreamEv α ε)) (e : ε) :
    pollNextAux f (.item (.error e) :: s) none =
      ⟨.ready (some (.error e)), s, none, [.streamPoll none]⟩ := by
  conv_lhs => rw [pollNextAux]
  simp [tryPoll, tryPollNext]

/-- Step lemma: with an empty slot, an upstream `Ok x` invokes the
callback once and the loop continues with `f x` freshly stored. -/
theorem pollNextAux_stream_ok {α β ε : Type} (f : α → Fut β ε)
    (s : List (StreamEv α ε)) (x : α) :
    pollNextAux f (.item (.ok x) :: s) none =
      ⟨(pollNextAux f s (some (f x))).res, (pollNextAux f s (some (f x))).stream,
        (pollNextAux f s (some (f x))).pending,
        .streamPoll none :: .callF x :: (pollNextAux f s (some (f x))).trace⟩ := by
  conv_lhs => rw [pollNextAux]
  simp [tryPoll, tryPollNext]

/-- Induction principle following the call structure of the `poll_next`
loop and of any driver that re-invokes `poll_next` on the state the
previous call left behind: each case corresponds to one shape of the
`(stream, pending)` state, with the inductive hypothesis available at
the state the loop (or such a driver) continues from. -/
theorem pollState_induction {α β ε : Type} (f : α → Fut β ε)
    (P : List (StreamEv α ε) → Option (Fut β ε) → Prop)
    (hpend : ∀ s d r, P s (some ⟨d, r⟩) → P s (some ⟨d + 1, r⟩))
    (hkeep : ∀ s v, P s none → P s (some ⟨0, .ok (some v)⟩))
    (herr : ∀ s e, P s none → P s (some ⟨0, .error e⟩))
    (hdrop : ∀ s, P s none → P s (some ⟨0, .ok none⟩))
    (hnil : P [] none)
    (hspend : ∀ s, P s none → P (.pend :: s) none)
    (hsdone : ∀ s, P s none → P (.done :: s) none)
    (hserr : ∀ s e, P s none → P (.item (.error e) :: s) none)
    (hsok : ∀ s x, (∀ fut, P s (some fut)) → P (.item (.ok x) :: s) none) :
    ∀ s p, P s p := by
  have key : ∀ s, P s none → ∀ fut, P s (some fut) := by
    intro s hs fut
    obtain ⟨d, r⟩ := fut
    induction d with
    | zero =>
      match r with
      | .ok (some v) => exact hkeep s v hs
      | .ok none => exact hdrop s hs
      | .error e => exact herr s e hs
    | succ d ihd => exact hpend s d r ihd
  have main : ∀ s, P s none := by
    intro s
    induction s with
    | nil => exact hnil
    | cons ev s' ih =>
      match ev with
      | .pend => exact hspend s' ih
      | .done => exact hsdone s' ih
      | .item (.error e) => exact hserr s' e ih
      | .item (.ok x) => exact hsok s' x (key s' ih)
  intro s p
  match p with
  | none => exact main s
  | some fut => exact key s (main s) fut

/-- Unfolding lemma for the cost of a state with an occupied slot. -/
theorem stateCost_some {α β ε : Type} (f : α → Fut β ε)
    (s : List (StreamEv α ε)) (fut : Fut β ε) :
    stateCost f s (some fut) = streamCost f s + futCost fut := rfl

/-- Unfolding lemma for the cost of a state with an empty slot. -/
theorem stateCost_none {α β ε : Type} (f : α → Fut β ε)
    (s : List (StreamEv α ε)) : stateCost f s none = streamCost f s := rfl

/-- Unfolding lemma for the cost of a non-empty upstream trace. -/
theorem streamCost_cons {α β ε : Type} (f : α → Fut β ε)
    (ev : StreamEv α ε) (s : List (StreamEv α ε)) :
    streamCost f (ev :: s) = evCost f ev + streamCost f s := by
  simp [streamCost]

/-- Unless a `poll_next` call reports end-of-sequence, the state it
leaves behind has strictly smaller cost than the state it started from;
this is what makes driving the adapter to completion terminate. -/
theorem pollNextAux_cost {α β ε : Type} (f : α → Fut β ε) :
    ∀ (s : List (StreamEv α ε)) (p : Option (Fut β ε)),
      (pollNextAux f s p).res ≠ Poll.ready none →
      stateCost f (pollNextAux f s p).stream (pollNextAux f s p).pending <
        stateCost f s p := by
  refine pollState_induction f _ ?_ ?_ ?_ ?_ ?_ ?_ ?_ ?_ ?_
  · intro s d r _ _
    rw [pollNextAux_fut_pending]
    simp [stateCost_some, futCost]
  · intro s v _ _
    rw [pollNextAux_fut_keep]
    simp [stateCost_some, stateCost_none, futCost]
  · intro s e _ _
    rw [pollNextAux_fut_err]
    simp [stateCost_some, stateCost_none, futCost]
  · intro s ih h
    rw [pollNextAux_fut_drop] at h ⊢
    simp only at h
    have := ih h
    calc stateCost f (pollNextAux f s none).stream (pollNextAux f s none).pending
        < stateCost f s none := this
      _ < stateCost f s (some ⟨0, .ok none⟩) := by
          simp [stateCost_some, stateCost_none, futCost]
  · intro h
    rw [pollNextAux_nil] at h
    simp at h
  · intro s _ _
    rw [pollNextAux_stream_pend]
    simp [stateCost_none, streamCost_cons, evCost]
  · intro s _ h
    rw [pollNextAux_stream_done] at h
    simp at h
  · intro s e _ _
    rw [pollNextAux_stream_err]
    simp [stateCost_none, streamCost_cons, evCost]
  · intro s x ih h
    rw [pollNextAux_stream_ok] at h ⊢
    simp only at h
    have := ih (f x) h
    calc stateCost f (pollNextAux f s (some (f x))).stream
          (pollNextAux f s (some (f x))).pending
        < stateCost f s (some (f x)) := this
      _ < stateCost f (.item (.ok x) :: s) none := by
          simp [stateCost_some, stateCost_none, streamCost_cons, evCost]
          omega

/-- Drive the adapter the way a consumer does: repeatedly call
`poll_next` on the state the previous call left behind, collect every
yielded item (values and errors, in order) and stop at the first
end-of-sequence report. A suspension is transparent here: the driver
simply polls again (the model's upstream makes progress deterministic).
-/
def runAux {α β ε : Type} (f : α → Fut β ε) (s : List (StreamEv α ε))
    (p : Option (Fut β ε)) : List (Except ε β) :=
  match h : (pollNextAux f s p).res with
  | .ready none => []
  | .ready (some v) =>
    v :: runAux f (pollNextAux f s p).stream (pollNextAux f s p).pending
  | .pending => runAux f (pollNextAux f s p).stream (pollNextAux f s p).pending
  termination_by stateCost f s p
  decreasing_by
  · exact pollNextAux_cost f s p (by rw [h]; simp)
  · exact pollNextAux_cost f s p (by rw [h]; simp)

/-- The adapter struct, translated field by field from the Rust source;
the stream and future types are instantiated with their models. -/
structure TryFilterMap (α β ε : Type) : Type where
  stream : List (StreamEv α ε)
  f : α → Fut β ε
  pending : Option (Fut β ε)

namespace TryFilterMap

/-- `TryFilterMap::new`: wrap a stream and a callback, empty slot. -/
def new {α β ε : Type} (stream : List (StreamEv α ε)) (f : α → Fut β ε) :
    TryFilterMap α β ε :=
  ⟨stream, f, none⟩

/-- `TryFilterMap::get_ref`: `&self.stream` — a read-only view of the
upstream stream; the adapter itself is untouched by the call. -/
def get_ref {α β ε : Type} (a : TryFilterMap α β ε) : List (StreamEv α ε) :=
  a.stream

/-- `TryFilterMap::get_mut`: `&mut self.stream`, modelled as a lens — the
current stream plus the function writing a replacement stream back into
the adapter (only the `stream` field can be written through it). -/
def get_mut {α β ε : Type} (a : TryFilterMap α β ε) :
    List (StreamEv α ε) × (List (StreamEv α ε) → TryFilterMap α β ε) :=
  (a.stream, fun st => { a with stream := st })

/-- `TryFilterMap::into_inner`: `self.stream` — consume the adapter and
return the upstream stream, dropping `f` and any pending future. -/
def into_inner {α β ε : Type} (a : TryFilterMap α β ε) : List (StreamEv α ε) :=
  a.stream

/-- `poll_next` on the adapter struct: run the loop on the `stream` and
`pending` fields and write the updated fields back. -/
def poll_next {α β ε : Type} (a : TryFilterMap α β ε) :
    Poll (Option (Except ε β)) × TryFilterMap α β ε :=
  let r := pollNextAux a.f a.stream a.pending
  (r.res, ⟨r.stream, a.f, r.pending⟩)

/-- Drive the adapter by repeated `poll_next` calls until it reports
end-of-sequence, collecting every yielded item in order. -/
def run {α β ε : Type} (a : TryFilterMap α β ε) : List (Except ε β) :=
  runAux a.f a.stream a.pending

end TryFilterMap

/-- The order-preserving projection the spec describes, written from the
spec's classification: upstream errors pass through positionally, an
`Ok x` item whose future resolves `Ok (some v)` appears as `Ok v`, one
whose future resolves `Ok none` is omitted, one whose future resolves
`Err e` contributes `Err e`; the output ends at upstream exhaustion and
not-ready events are invisible. -/
def projection {α β ε : Type} (f : α → Fut β ε) :
    List (StreamEv α ε) → List (Except ε β)
  | [] => []
  | .pend :: s => projection f s
  | .done :: _ => []
  | .item (.error e) :: s => .error e :: projection f s
  | .item (.ok x) :: s =>
    match (f x).result with
    | .ok (some v) => .ok v :: projection f s
    | .ok none => projection f s
    | .error e => .error e :: projection f s

/-- Expected output of a state whose slot already holds a future with
eventual result `r`, followed by the projection of the remaining trace. -/
def pendProj {α β ε : Type} (f : α → Fut β ε) (r : Except ε (Option β))
    (s : List (StreamEv α ε)) : List (Except ε β) :=
  match r with
  | .ok (some v) => .ok v :: projection f s
  | .ok none => projection f s
  | .error e => .error e :: projection f s

/-- Expected full output from an arbitrary adapter state. -/
def stateProj {α β ε : Type} (f : α → Fut β ε) (s : List (StreamEv α ε)) :
    Option (Fut β ε) → List (Except ε β)
  | none => projection f s
  | some fut => pendProj f fut.result s

/-- The arguments of the callback invocations recorded in a trace. -/
def callFArgs {α β ε : Type} : List (PollEv α β ε) → List α
  | [] => []
  | .callF x :: t => x :: callFArgs t
  | .streamPoll _ :: t => callFArgs t
  | .taskPoll :: t => callFArgs t

/-- The payloads of the `Ok` items in an upstream trace segment. -/
def okItems {α ε : Type} : List (StreamEv α ε) → List α
  | [] => []
  | .item (.ok x) :: t => x :: okItems t
  | .item (.error _) :: t => okItems t
  | .pend :: t => okItems t
  | .done :: t => okItems t

/-- Unfolding lemma: a call reporting end-of-sequence makes the driver
stop. -/
theorem runAux_of_ready_none {α β ε : Type} (f : α → Fut β ε)
    (s : List (StreamEv α ε)) (p : Option (Fut β ε))
    (h : (pollNextAux f s p).res = .ready none) : runAux f s p = [] := by
  conv_lhs => rw [runAux]
  split <;> simp_all

/-- Unfolding lemma: a call yielding an item makes the driver record it
and continue from the state the call left behind. -/
theorem runAux_of_ready_some {α β ε : Type} (f : α → Fut β ε)
    (s : List (StreamEv α ε)) (p : Option (Fut β ε)) (v : Except ε β)
    (h : (pollNextAux f s p).res = .ready (some v)) :
    runAux f s p =
      v :: runAux f (pollNextAux f s p).stream (pollNextAux f s p).pending := by
  conv_lhs => rw [runAux]
  split <;> simp_all

/-- Unfolding lemma: a suspending call makes the driver poll again from
the state the call left behind. -/
theorem runAux_of_pending {α β ε : Type} (f : α → Fut β ε)
    (s : List (StreamEv α ε)) (p : Option (Fut β ε))
    (h : (pollNextAux f s p).res = .pending) :
    runAux f s p =
      runAux f (pollNextAux f s p).stream (pollNextAux f s p).pending := by
  conv_lhs => rw [runAux]
  split <;> simp_all

/-- Driver step: a not-yet-ready stored future is polled down by one. -/
theorem runAux_fut_pending {α β ε : Type} (f : α → Fut β ε)
    (s : List (StreamEv α ε)) (d : Nat) (r : Except ε (Option β)) :
    runAux f s (some ⟨d + 1, r⟩) = runAux f s (some ⟨d, r⟩) := by
  rw [runAux_of_pending f s (some ⟨d + 1, r⟩) (by rw [pollNextAux_fut_pending]),
    pollNextAux_fut_pending]

/-- Driver step: a stored future resolving `Ok (some v)` contributes
`Ok v` to the output. -/
theorem runAux_fut_keep {α β ε : Type} (f : α → Fut β ε)
    (s : List (StreamEv α ε)) (v : β) :
    runAux f s (some ⟨0, .ok (some v)⟩) = .ok v :: runAux f s none := by
  rw [runAux_of_ready_some f s (some ⟨0, .ok (some v)⟩) (.ok v)
      (by rw [pollNextAux_fut_keep]),
    pollNextAux_fut_keep]

/-- Driver step: a stored future resolving `Err e` contributes `Err e`. -/
theorem runAux_fut_err {α β ε : Type} (f : α → Fut β ε)
    (s : List (StreamEv α ε)) (e : ε) :
    runAux f s (some ⟨0, .error e⟩) = .error e :: runAux f s none := by
  rw [runAux_of_ready_some f s (some ⟨0, .error e⟩) (.error e)
      (by rw [pollNextAux_fut_err]),
    pollNextAux_fut_err]

/-- Driver step: a stored future resolving `Ok none` contributes nothing;
the run continues as if the slot had been empty. -/
theorem runAux_fut_drop {α β ε : Type} (f : α → Fut β ε)
    (s : List (StreamEv α ε)) :
    runAux f s (some ⟨0, .ok none⟩) = runAux f s none := by
  cases hres : (pollNextAux f s none).res with
  | pending =>
    rw [runAux_of_pending f s (some ⟨0, .ok none⟩)
        (by rw [pollNextAux_fut_drop]; exact hres),
      runAux_of_pending f s none hres, pollNextAux_fut_drop]
  | ready o =>
    cases o with
    | none =>
      rw [runAux_of_ready_none f s (some ⟨0, .ok none⟩)
          (by rw [pollNextAux_fut_drop]; exact hres),
        runAux_of_ready_none f s none hres]
    | some v =>
      rw [runAux_of_ready_some f s (some ⟨0, .ok none⟩) v
          (by rw [pollNextAux_fut_drop]; exact hres),
        runAux_of_ready_some f s none v hres, pollNextAux_fut_drop]

/-- Driver step: an exhausted upstream trace ends the run. -/
theorem runAux_nil {α β ε : Type} (f : α → Fut β ε) :
    runAux f [] none = [] :=
  runAux_of_ready_none f [] none (by rw [pollNextAux_nil])

/-- Driver step: an upstream not-ready event contributes nothing. -/
theorem runAux_stream_pend {α β ε : Type} (f : α → Fut β ε)
    (s : List (StreamEv α ε)) :
    runAux f (.pend :: s) none = runAux f s none := by
  rw [runAux_of_pending f (.pend :: s) none (by rw [pollNextAux_stream_pend]),
    pollNextAux_stream_pend]

/-- Driver step: an upstream exhaustion event ends the run. -/
theorem runAux_stream_done {α β ε : Type} (f : α → Fut β ε)
    (s : List (StreamEv α ε)) :
    runAux f (.done :: s) none = [] :=
  runAux_of_ready_none f (.done :: s) none (by rw [pollNextAux_stream_done])

/-- Driver step: an upstream `Err e` contributes `Err e`. -/
theorem runAux_stream_err {α β ε : Type} (f : α → Fut β ε)
    (s : List (StreamEv α ε)) (e : ε) :
    runAux f (.item (.error e) :: s) none = .error e :: runAux f s none := by
  rw [runAux_of_ready_some f (.item (.error e) :: s) none (.error e)
      (by rw [pollNextAux_stream_err]),
    pollNextAux_stream_err]

/-- Driver step: an upstream `Ok x` hands the run over to the state with
`f x` freshly stored in the slot. -/
theorem runAux_stream_ok {α β ε : Type} (f : α → Fut β ε)
    (s : List (StreamEv α ε)) (x : α) :
    runAux f (.item (.ok x) :: s) none = runAux f s (some (f x)) := by
  cases hres : (pollNextAux f s (some (f x))).res with
  | pending =>
    rw [runAux_of_pending f (.item (.ok x) :: s) none
        (by rw [pollNextAux_stream_ok]; exact hres),
      runAux_of_pending f s (some (f x)) hres, pollNextAux_stream_ok]
  | ready o =>
    cases o with
    | none =>
      rw [runAux_of_ready_none f (.item (.ok x) :: s) none
          (by rw [pollNextAux_stream_ok]; exact hres),
        runAux_of_ready_none f s (some (f x)) hres]
    | some v =>
      rw [runAux_of_ready_some f (.item (.ok x) :: s) none v
          (by rw [pollNextAux_stream_ok]; exact hres),
        runAux_of_ready_some f s (some (f x)) v hres, pollNextAux_stream_ok]

/-- Main functional-correctness lemma: from any adapter state, driving
`poll_next` to completion produces exactly the order-preserving
projection of the remaining upstream trace (preceded, if a future is
already stored, by that future's own contribution). -/
theorem runAux_eq_stateProj {α β ε : Type} (f : α → Fut β ε) :
    ∀ (s : List (StreamEv α ε)) (p : Option (Fut β ε)),
      runAux f s p = stateProj f s p := by
  refine pollState_induction f _ ?_ ?_ ?_ ?_ ?_ ?_ ?_ ?_ ?_
  · intro s d r ih
    rw [runAux_fut_pending, ih]
    rfl
  · intro s v ih
    rw [runAux_fut_keep, ih]
    rfl
  · intro s e ih
    rw [runAux_fut_err, ih]
    rfl
  · intro s ih
    rw [runAux_fut_drop, ih]
    rfl
  · rw [runAux_nil]
    rfl
  · intro s ih
    rw [runAux_stream_pend, ih]
    rfl
  · intro s ih
    rw [runAux_stream_done]
    rfl
  · intro s e ih
    rw [runAux_stream_err, ih]
    rfl
  · intro s x ih
    rw [runAux_stream_ok, ih (f x)]
    show pendProj f (f x).result s = projection f (.item (.ok x) :: s)
    cases h : (f x).result with
    | ok o =>
      cases o <;> simp [pendProj, projection, h]
    | error e => simp [pendProj, projection, h]

/-- Invariant lemma: every upstream poll recorded in a call's trace
happened while the pending slot was empty. -/
theorem pollNextAux_streamPoll_slot {α β ε : Type} (f : α → Fut β ε) :
    ∀ (s : List (StreamEv α ε)) (p : Option (Fut β ε)) (q : Option (Fut β ε)),
      PollEv.streamPoll q ∈ (pollNextAux f s p).trace → q = none := by
  refine pollState_induction f _ ?_ ?_ ?_ ?_ ?_ ?_ ?_ ?_ ?_
  · intro s d r _ q hq
    rw [pollNextAux_fut_pending] at hq
    simp at hq
  · intro s v _ q hq
    rw [pollNextAux_fut_keep] at hq
    simp at hq
  · intro s e _ q hq
    rw [pollNextAux_fut_err] at hq
    simp at hq
  · intro s ih q hq
    rw [pollNextAux_fut_drop] at hq
    simp at hq
    exact ih q hq
  · intro q hq
    rw [pollNextAux_nil] at hq
    simp at hq
    exact hq
  · intro s _ q hq
    rw [pollNextAux_stream_pend] at hq
    simp at hq
    exact hq
  · intro s _ q hq
    rw [pollNextAux_stream_done] at hq
    simp at hq
    exact hq
  · intro s e _ q hq
    rw [pollNextAux_stream_err] at hq
    simp at hq
    exact hq
  · intro s x ih q hq
    rw [pollNextAux_stream_ok] at hq
    simp at hq
    rcases hq with hq | hq
    · exact hq
    · exact ih (f x) q hq

/-- Invariant lemma: `poll_next` leaves a future in the slot only when it
suspended on that future; every non-suspending return leaves the slot
empty. -/
theorem pollNextAux_pending_res {α β ε : Type} (f : α → Fut β ε) :
    ∀ (s : List (StreamEv α ε)) (p : Option (Fut β ε)) (fut' : Fut β ε),
      (pollNextAux f s p).pending = some fut' →
      (pollNextAux f s p).res = Poll.pending := by
  refine pollState_induction f _ ?_ ?_ ?_ ?_ ?_ ?_ ?_ ?_ ?_
  · intro s d r _ fut' _
    rw [pollNextAux_fut_pending]
  · intro s v _ fut' h
    rw [pollNextAux_fut_keep] at h
    simp at h
  · intro s e _ fut' h
    rw [pollNextAux_fut_err] at h
    simp at h
  · intro s ih fut' h
    rw [pollNextAux_fut_drop] at h ⊢
    exact ih fut' h
  · intro fut' h
    rw [pollNextAux_nil] at h
    simp at h
  · intro s _ fut' h
    rw [pollNextAux_stream_pend]
  · intro s _ fut' h
    rw [pollNextAux_stream_done] at h
    simp at h
  · intro s e _ fut' h
    rw [pollNextAux_stream_err] at h
    simp at h
  · intro s x ih fut' h
    rw [pollNextAux_stream_ok] at h ⊢
    exact ih (f x) fut' h

/-- Invariant lemma: `poll_next` reports end-of-sequence only directly
after a poll of the upstream stream (with an empty slot): the trace of
such a call ends in a `streamPoll` event. End-of-sequence is never the
reaction to a dropped item. -/
theorem pollNextAux_done_polls_stream {α β ε : Type} (f : α → Fut β ε) :
    ∀ (s : List (StreamEv α ε)) (p : Option (Fut β ε)),
      (pollNextAux f s p).res = Poll.ready none →
      ∃ tr, (pollNextAux f s p).trace = tr ++ [PollEv.streamPoll none] := by
  refine pollState_induction f _ ?_ ?_ ?_ ?_ ?_ ?_ ?_ ?_ ?_
  · intro s d r _ h
    rw [pollNextAux_fut_pending] at h
    simp at h
  · intro s v _ h
    rw [pollNextAux_fut_keep] at h
    simp at h
  · intro s e _ h
    rw [pollNextAux_fut_err] at h
    simp at h
  · intro s ih h
    rw [pollNextAux_fut_drop] at h ⊢
    obtain ⟨tr, htr⟩ := ih h
    exact ⟨.taskPoll :: tr, by simp [htr]⟩
  · intro h
    rw [pollNextAux_nil]
    exact ⟨[], rfl⟩
  · intro s _ h
    rw [pollNextAux_stream_pend] at h
    simp at h
  · intro s _ h
    rw [pollNextAux_stream_done]
    exact ⟨[], rfl⟩
  · intro s e _ h
    rw [pollNextAux_stream_err] at h
    simp at h
  · intro s x ih h
    rw [pollNextAux_stream_ok] at h ⊢
    obtain ⟨tr, htr⟩ := ih (f x) h
    exact ⟨.streamPoll none :: .callF x :: tr, by simp [htr]⟩

/-- Invariant lemma: in any single `poll_next` call, the callback is
invoked exactly once per `Ok` item consumed from the upstream trace, in
order: the recorded invocation arguments are precisely the `Ok` payloads
of the consumed trace segment. -/
theorem pollNextAux_callF_args {α β ε : Type} (f : α → Fut β ε) :
    ∀ (s : List (StreamEv α ε)) (p : Option (Fut β ε)),
      ∃ pre, s = pre ++ (pollNextAux f s p).stream ∧
        callFArgs (pollNextAux f s p).trace = okItems pre := by
  refine pollState_induction f _ ?_ ?_ ?_ ?_ ?_ ?_ ?_ ?_ ?_
  · intro s d r _
    rw [pollNextAux_fut_pending]
    exact ⟨[], by simp [callFArgs, okItems]⟩
  · intro s v _
    rw [pollNextAux_fut_keep]
    exact ⟨[], by simp [callFArgs, okItems]⟩
  · intro s e _
    rw [pollNextAux_fut_err]
    exact ⟨[], by simp [callFArgs, okItems]⟩
  · intro s ih
    rw [pollNextAux_fut_drop]
    obtain ⟨pre, h1, h2⟩ := ih
    exact ⟨pre, h1, by simp [callFArgs, h2]⟩
  · rw [pollNextAux_nil]
    exact ⟨[], by simp [callFArgs, okItems]⟩
  · intro s _
    rw [pollNextAux_stream_pend]
    exact ⟨[.pend], by simp [callFArgs, okItems]⟩
  · intro s _
    rw [pollNextAux_stream_done]
    exact ⟨[.done], by simp [callFArgs, okItems]⟩
  · intro s e _
    rw [pollNextAux_stream_err]
    exact ⟨[.item (.error e)], by simp [callFArgs, okItems]⟩
  · intro s x ih
    rw [pollNextAux_stream_ok]
    obtain ⟨pre, h1, h2⟩ := ih (f x)
    refine ⟨.item (.ok x) :: pre, ?_, ?_⟩
    · conv_lhs => rw [h1]
      simp
    · simp [callFArgs, okItems, h2]

/-- With an empty slot, the very first action of a `poll_next` call is a
poll of the upstream stream. -/
theorem pollNextAux_idle_polls_stream {α β ε : Type} (f : α → Fut β ε)
    (s : List (StreamEv α ε)) :
    (pollNextAux f s none).trace.head? = some (.streamPoll none) := by
  match s with
  | [] => rw [pollNextAux_nil]; rfl
  | .pend :: s' => rw [pollNextAux_stream_pend]; rfl
  | .done :: s' => rw [pollNextAux_stream_done]; rfl
  | .item (.error e) :: s' => rw [pollNextAux_stream_err]; rfl
  | .item (.ok x) :: s' => rw [pollNextAux_stream_ok]; rfl

/-- A call that does not suspend leaves the pending slot empty. -/
theorem pollNextAux_no_suspend_slot {α β ε : Type} (f : α → Fut β ε)
    (s : List (StreamEv α ε)) (p : Option (Fut β ε))
    (h : (pollNextAux f s p).res ≠ Poll.pending) :
    (pollNextAux f s p).pending = none := by
  cases hp : (pollNextAux f s p).pending with
  | none => rfl
  | some fut' => exact absurd (pollNextAux_pending_res f s p fut' hp) h

/-- Callback of spec Scenario A: keep `n * 2` for even `n`, drop odd `n`,
resolving immediately. -/
def scenarioA_f : Nat → Fut Nat String := fun n =>
  ⟨0, if n % 2 = 0 then .ok (some (n * 2)) else .ok none⟩

/-- Upstream trace of spec Scenario A: `[Ok 1, Ok 2, Ok 3]`. -/
def scenarioA_s : List (StreamEv Nat String) :=
  [.item (.ok 1), .item (.ok 2), .item (.ok 3)]

/-- Callback of spec Scenario B: every task resolves immediately to
`Err "bad"`. -/
def scenarioB_f : Nat → Fut Nat String := fun _ => ⟨0, .error "bad"⟩

/-- Upstream trace of spec Scenario B: `[Ok 1]`. -/
def scenarioB_s : List (StreamEv Nat String) := [.item (.ok 1)]

/-- Callback of spec Scenario C: every task resolves immediately to
`Ok (Some 20)`. -/
def scenarioC_f : Nat → Fut Nat String := fun _ => ⟨0, .ok (some 20)⟩

/-- Upstream trace of spec Scenario C: `[Err "x", Ok 2]`. -/
def scenarioC_s : List (StreamEv Nat String) :=
  [.item (.error "x"), .item (.ok 2)]

/-- Identity-keep callback used for the non-latching scenario. -/
def notLatch_f : Nat → Fut Nat String := fun n => ⟨0, .ok (some n)⟩

/-- C1: for every finite upstream trace and every callback, driving
`poll_next` on a fresh adapter until end-of-sequence yields exactly the
order-preserving projection of the upstream items through the callback's
classification (errors pass through positionally, drops are omitted,
keeps are mapped); in particular Scenario A — upstream
`[Ok 1, Ok 2, Ok 3]` with callback keeping `n * 2` for even `n` —
outputs `[Ok 4]`, and Scenario C — upstream `[Err "x", Ok 2]` with
callback keeping `20` — outputs `[Err "x", Ok 20]`. -/
theorem C1_output_is_projection :
    (∀ (α β ε : Type) (f : α → Fut β ε) (s : List (StreamEv α ε)),
      (TryFilterMap.new s f).run = projection f s) ∧
    (TryFilterMap.new scenarioA_s scenarioA_f).run = [.ok 4] ∧
    (TryFilterMap.new scenarioC_s scenarioC_f).run = [.error "x", .ok 20] := by
  refine ⟨?_, ?_, ?_⟩
  · intro α β ε f s
    exact runAux_eq_stateProj f s none
  · exact (runAux_eq_stateProj scenarioA_f scenarioA_s none).trans rfl
  · exact (runAux_eq_stateProj scenarioC_f scenarioC_s none).trans rfl

/-- C2: the adapter holds at most one task (the slot is an `Option`);
every upstream poll in any call happens with an empty slot (a new item
is never pulled while a task is pending); and the slot is occupied after
a call only when that call suspended on the stored task, i.e. only
between a task's creation and its resolution. -/
theorem C2_single_task_invariant :
    ∀ (α β ε : Type) (f : α → Fut β ε) (s : List (StreamEv α ε))
      (p : Option (Fut β ε)),
      (pollNextAux f s p).pending.toList.length ≤ 1 ∧
      (∀ q, PollEv.streamPoll q ∈ (pollNextAux f s p).trace → q = none) ∧
      (∀ fut', (pollNextAux f s p).pending = some fut' →
        (pollNextAux f s p).res = Poll.pending) := by
  intro α β ε f s p
  refine ⟨?_, pollNextAux_streamPoll_slot f s p, pollNextAux_pending_res f s p⟩
  cases (pollNextAux f s p).pending <;> simp

/-- Witness for C2 at a concrete state: with `[pend]` upstream and a
task two polls from resolution stored, the call suspends (as the
occupied-slot conjunct forces). -/
theorem C2_single_task_invariant_witness :
    (pollNextAux (fun n : Nat => (⟨0, Except.ok (some n)⟩ : Fut Nat String))
      [.pend] (some ⟨1, Except.ok none⟩)).res = Poll.pending :=
  (C2_single_task_invariant Nat Nat String _ [.pend] (some ⟨1, Except.ok none⟩)).2.2
    ⟨0, Except.ok none⟩ (by rw [pollNextAux_fut_pending])

/-- C3: upstream and task errors are forwarded as-is, exactly once, and
do not disable the adapter: a call yielding an error leaves the slot
empty, and a further call with an empty slot starts by pulling upstream
again. Scenario B: upstream `[Ok 1]` with the task resolving
`Err "bad"` outputs exactly `[Err "bad"]`; the first call yields
`Err "bad"` leaving an exhausted upstream and an empty slot, and the
next call reports end-of-sequence. -/
theorem C3_errors_forwarded_once :
    (∀ (α β ε : Type) (f : α → Fut β ε) (s : List (StreamEv α ε))
      (p : Option (Fut β ε)) (e : ε),
      (pollNextAux f s p).res = Poll.ready (some (.error e)) →
      (pollNextAux f s p).pending = none) ∧
    (∀ (α β ε : Type) (f : α → Fut β ε) (s : List (StreamEv α ε)),
      (pollNextAux f s none).trace.head? = some (.streamPoll none)) ∧
    (TryFilterMap.new scenarioB_s scenarioB_f).run = [.error "bad"] ∧
    (pollNextAux scenarioB_f scenarioB_s none).res =
      Poll.ready (some (.error "bad")) ∧
    (pollNextAux scenarioB_f scenarioB_s none).stream = [] ∧
    (pollNextAux scenarioB_f scenarioB_s none).pending = none ∧
    (pollNextAux scenarioB_f [] none).res = Poll.ready none := by
  refine ⟨?_, ?_, ?_, ?_, ?_, ?_, ?_⟩
  · intro α β ε f s p e h
    exact pollNextAux_no_suspend_slot f s p (by rw [h]; simp)
  · intro α β ε f s
    exact pollNextAux_idle_polls_stream f s
  · exact (runAux_eq_stateProj scenarioB_f scenarioB_s none).trans rfl
  · simp [scenarioB_s, scenarioB_f, pollNextAux_stream_ok, pollNextAux_fut_err]
  · simp [scenarioB_s, scenarioB_f, pollNextAux_stream_ok, pollNextAux_fut_err]
  · simp [scenarioB_s, scenarioB_f, pollNextAux_stream_ok, pollNextAux_fut_err]
  · rw [pollNextAux_nil]

/-- Witness for C3 at the Scenario B input: the error-yielding call
leaves the pending slot empty. -/
theorem C3_errors_forwarded_once_witness :
    (pollNextAux scenarioB_f scenarioB_s none).pending = none :=
  C3_errors_forwarded_once.1 Nat Nat String scenarioB_f scenarioB_s none "bad"
    (by simp [scenarioB_s, scenarioB_f, pollNextAux_stream_ok, pollNextAux_fut_err])

/-- C4: a task resolving `Ok none` clears the slot and makes the call
continue exactly as one that starts pulling upstream with an empty slot
(no return to the caller); every return is one of suspend, item, error
or end-of-sequence (the result type has no other value), and
end-of-sequence is only ever reported straight after an upstream poll —
never as an empty yield for a dropped item. -/
theorem C4_drop_loops_no_empty_yield :
    (∀ (α β ε : Type) (f : α → Fut β ε) (s : List (StreamEv α ε)),
      pollNextAux f s (some ⟨0, .ok none⟩) =
        ⟨(pollNextAux f s none).res, (pollNextAux f s none).stream,
          (pollNextAux f s none).pending,
          .taskPoll :: (pollNextAux f s none).trace⟩) ∧
    (∀ (α β ε : Type) (f : α → Fut β ε) (s : List (StreamEv α ε))
      (p : Option (Fut β ε)),
      (pollNextAux f s p).res = Poll.pending ∨
      (pollNextAux f s p).res = Poll.ready none ∨
      (∃ v, (pollNextAux f s p).res = Poll.ready (some (.ok v))) ∨
      (∃ e, (pollNextAux f s p).res = Poll.ready (some (.error e)))) ∧
    (∀ (α β ε : Type) (f : α → Fut β ε) (s : List (StreamEv α ε))
      (p : Option (Fut β ε)),
      (pollNextAux f s p).res = Poll.ready none →
      ∃ tr : List (PollEv α β ε),
        (pollNextAux f s p).trace = tr ++ [PollEv.streamPoll none]) := by
  refine ⟨?_, ?_, ?_⟩
  · intro α β ε f s
    exact pollNextAux_fut_drop f s
  · intro α β ε f s p
    cases hres : (pollNextAux f s p).res with
    | pending => exact Or.inl rfl
    | ready o =>
      cases o with
      | none => exact Or.inr (Or.inl rfl)
      | some r =>
        cases r with
        | ok v => exact Or.inr (Or.inr (Or.inl ⟨v, rfl⟩))
        | error e => exact Or.inr (Or.inr (Or.inr ⟨e, rfl⟩))
  · intro α β ε f s p
    exact pollNextAux_done_polls_stream f s p

/-- Witness for C4 at a concrete state: an end-of-sequence report on a
`[done]` upstream indeed comes straight after an upstream poll. -/
theorem C4_drop_loops_no_empty_yield_witness :
    ∃ tr : List (PollEv Nat Nat String),
      (pollNextAux notLatch_f [.done] none).trace =
        tr ++ [PollEv.streamPoll none] :=
  C4_drop_loops_no_empty_yield.2.2 Nat Nat String notLatch_f [.done] none
    (by rw [pollNextAux_stream_done])

/-- C5: the non-looping rows of the spec's transition table. With an
empty slot (Idle): upstream not ready makes the call suspend and
upstream exhaustion makes it report end-of-sequence, the slot staying
empty both times (the adapter performs no action of its own). With an
occupied slot (Pending): a task that is not ready makes the call
suspend while the (re-polled) task stays stored in the slot. -/
theorem C5_transition_table :
    (∀ (α β ε : Type) (f : α → Fut β ε) (s : List (StreamEv α ε)),
      pollNextAux f (.pend :: s) none = ⟨.pending, s, none, [.streamPoll none]⟩) ∧
    (∀ (α β ε : Type) (f : α → Fut β ε),
      pollNextAux f [] none = ⟨.ready none, [], none, [.streamPoll none]⟩) ∧
    (∀ (α β ε : Type) (f : α → Fut β ε) (s : List (StreamEv α ε)),
      pollNextAux f (.done :: s) none = ⟨.ready none, s, none, [.streamPoll none]⟩) ∧
    (∀ (α β ε : Type) (f : α → Fut β ε) (s : List (StreamEv α ε)) (d : Nat)
      (r : Except ε (Option β)),
      pollNextAux f s (some ⟨d + 1, r⟩) = ⟨.pending, s, some ⟨d, r⟩, [.taskPoll]⟩) :=
  ⟨fun _ _ _ f s => pollNextAux_stream_pend f s,
   fun _ _ _ f => pollNextAux_nil f,
   fun _ _ _ f s => pollNextAux_stream_done f s,
   fun _ _ _ f s d r => pollNextAux_fut_pending f s d r⟩

/-- C6: in any single call the callback is invoked exactly once per
upstream `Ok` item consumed, in order (the recorded invocation arguments
are precisely the `Ok` payloads of the consumed trace segment), and a
call that finds a not-yet-ready task stored re-polls it without touching
the upstream stream or invoking the callback at all. -/
theorem C6_callback_once_per_item :
    (∀ (α β ε : Type) (f : α → Fut β ε) (s : List (StreamEv α ε))
      (p : Option (Fut β ε)),
      ∃ pre, s = pre ++ (pollNextAux f s p).stream ∧
        callFArgs (pollNextAux f s p).trace = okItems pre) ∧
    (∀ (α β ε : Type) (f : α → Fut β ε) (s : List (StreamEv α ε)) (d : Nat)
      (r : Except ε (Option β)),
      pollNextAux f s (some ⟨d + 1, r⟩) = ⟨.pending, s, some ⟨d, r⟩, [.taskPoll]⟩) :=
  ⟨fun _ _ _ f s p => pollNextAux_callF_args f s p,
   fun _ _ _ f s d r => pollNextAux_fut_pending f s d r⟩

/-- C7: `get_ref` returns the upstream stream read-only and `get_mut`
exposes it as a lens; neither call changes any field of the adapter —
writing back the stream that was read reproduces the adapter exactly,
and writes through the lens touch no field but `stream`. -/
theorem C7_accessors_no_mutation :
    ∀ (α β ε : Type) (a : TryFilterMap α β ε) (st : List (StreamEv α ε)),
      TryFilterMap.get_ref a = a.stream ∧
      (TryFilterMap.get_mut a).1 = a.stream ∧
      (TryFilterMap.get_mut a).2 a.stream = a ∧
      ((TryFilterMap.get_mut a).2 st).stream = st ∧
      ((TryFilterMap.get_mut a).2 st).f = a.f ∧
      ((TryFilterMap.get_mut a).2 st).pending = a.pending :=
  fun _ _ _ _ _ => ⟨rfl, rfl, rfl, rfl, rfl, rfl⟩

/-- C8: `into_inner` returns exactly the adapter's current upstream
stream field, regardless of the callback and of any task still in the
pending slot, which are simply discarded. -/
theorem C8_into_inner_returns_stream :
    ∀ (α β ε : Type) (a : TryFilterMap α β ε) (st : List (StreamEv α ε))
      (f : α → Fut β ε) (fut : Fut β ε),
      TryFilterMap.into_inner a = a.stream ∧
      TryFilterMap.into_inner (TryFilterMap.new st f) = st ∧
      TryFilterMap.into_inner ⟨st, f, some fut⟩ = st :=
  fun _ _ _ _ _ _ _ => ⟨rfl, rfl, rfl⟩

/-- C10: end-of-sequence is not latched. A call reporting
end-of-sequence leaves the slot empty, so the next call starts by
polling the upstream stream again, and the output is whatever the
upstream then produces: on upstream `[done, Ok 5]` with an
identity-keep callback, the first call reports end-of-sequence and the
second call yields `Ok 5`. -/
theorem C10_done_not_latched :
    (∀ (α β ε : Type) (f : α → Fut β ε) (s : List (StreamEv α ε))
      (p : Option (Fut β ε)),
      (pollNextAux f s p).res = Poll.ready none →
      (pollNextAux f s p).pending = none) ∧
    (∀ (α β ε : Type) (f : α → Fut β ε) (s : List (StreamEv α ε)),
      (pollNextAux f s none).trace.head? = some (.streamPoll none)) ∧
    (pollNextAux notLatch_f [.done, .item (.ok 5)] none).res = Poll.ready none ∧
    (pollNextAux notLatch_f [.done, .item (.ok 5)] none).stream =
      [.item (.ok 5)] ∧
    (pollNextAux notLatch_f [.done, .item (.ok 5)] none).pending = none ∧
    (pollNextAux notLatch_f [.item (.ok 5)] none).res =
      Poll.ready (some (.ok 5)) := by
  refine ⟨?_, ?_, ?_, ?_, ?_, ?_⟩
  · intro α β ε f s p h
    exact pollNextAux_no_suspend_slot f s p (by rw [h]; simp)
  · intro α β ε f s
    exact pollNextAux_idle_polls_stream f s
  · rw [pollNextAux_stream_done]
  · rw [pollNextAux_stream_done]
  · rw [pollNextAux_stream_done]
  · simp [notLatch_f, pollNextAux_stream_ok, pollNextAux_fut_keep]

/-- Witness for C10 at a concrete state: the end-of-sequence report on
`[done, Ok 5]` leaves the pending slot empty. -/
theorem C10_done_not_latched_witness :
    (pollNextAux notLatch_f [.done, .item (.ok 5)] none).pending = none :=
  C10_done_not_latched.1 Nat Nat String notLatch_f [.done, .item (.ok 5)] none
    (by rw [pollNextAux_stream_done])

end TryFilterMapSpec

